import Mathlib

/-!
# Verification of the mm-epub book-browsing application core

Shallow embedding of the feature-complete Vue variant (script section of the
main component): catalog loading, filter engine, favorites store, image cache
and browser-history/modal synchronisation, together with proofs of the
behavioural properties stated in the design document.

Modelling conventions:
* JavaScript strings are Lean `String`s; `toLowerCase`, `trim` and
  `includes` are modelled by executable character-list functions `jsToLower`,
  `jsTrim` and `jsIncludes` (infix search).
* `localStorage` is modelled as explicit pure state threaded through the
  operations; `JSON.stringify`/`JSON.parse` of a string array is injective,
  so the stored favorites value is modelled by the list itself.
* `fetch` is modelled by an oracle `Nat → Bool` giving the outcome of the
  n-th network request of the session (a thrown network error and a non-ok
  response are both failures: the code treats them identically).
* `URL.createObjectURL` yields a fresh session-scoped handle, modelled by a
  counter.  `encodeURIComponent` (a deterministic, injective browser
  builtin, external to the repository) is modelled as the identity: only
  determinism of URL construction matters for the stated properties.
-/

namespace MmEpub

/-- JavaScript `s.toLowerCase()`, characterwise lowering. -/
def jsToLower (s : String) : String :=
  ⟨s.data.map Char.toLower⟩

/-- JavaScript `s.trim()`: strip leading and trailing whitespace. -/
def jsTrim (s : String) : String :=
  ⟨((s.data.dropWhile Char.isWhitespace).reverse.dropWhile Char.isWhitespace).reverse⟩

/-- JavaScript `s.includes(t)`: `t` occurs as a contiguous substring of `s`. -/
def jsIncludes (s t : String) : Bool :=
  decide (t.data <:+: s.data)

/-- A catalog entry, as delivered by `summary.json`.  Fields not consulted by
the script logic are omitted; `category` and `size_in_bytes` are optional in
the data. -/
structure Book where
  name : String
  author : String
  category : Option String
  isCoverImg : Bool
  size_in_bytes : Option Nat
  deriving Repr, DecidableEq

/-- `getFavoriteKey` from the source: the composite key `author|name`. -/
def getFavoriteKey (b : Book) : String :=
  b.author ++ "|" ++ b.name

/-- The filter inputs: `searchQuery`, `selectedAuthor`, `selectedCategory`,
`showFavoritesOnly` refs of the component.  The empty string is the unset
value of the three text fields. -/
structure FilterState where
  searchQuery : String
  selectedAuthor : String
  selectedCategory : String
  showFavoritesOnly : Bool
  deriving Repr, DecidableEq

/-- `isFavorite` from the source: membership of the composite key in the
favorites array. -/
def isFavorite (favorites : List String) (b : Book) : Bool :=
  favorites.contains (getFavoriteKey b)

/-- First stage of `filteredBooks`: `if (searchQuery.value.trim())`, then
filter on `book.name.toLowerCase().includes(searchQuery.toLowerCase().trim())`. -/
def searchStage (q : String) (l : List Book) : List Book :=
  if jsTrim q ≠ "" then
    l.filter (fun b => jsIncludes (jsToLower b.name) (jsTrim (jsToLower q)))
  else l

/-- Second stage: `if (selectedAuthor.value)`, filter on
`book.author === selectedAuthor.value`. -/
def authorStage (a : String) (l : List Book) : List Book :=
  if a ≠ "" then l.filter (fun b => b.author == a) else l

/-- Third stage: `if (selectedCategory.value)`, filter on
`book.category === selectedCategory.value` (an absent category never equals a
non-empty selection). -/
def categoryStage (c : String) (l : List Book) : List Book :=
  if c ≠ "" then l.filter (fun b => b.category == some c) else l

/-- Fourth stage: `if (showFavoritesOnly.value)`, filter on `isFavorite`. -/
def favStage (favOnly : Bool) (favorites : List String) (l : List Book) : List Book :=
  if favOnly then l.filter (isFavorite favorites) else l

/-- The `filteredBooks` computed property: the catalog successively filtered
by search query, exact author, exact category, and favorites membership; each
stage only applies when its field is truthy (non-empty / `true`). -/
def filteredBooks (books : List Book) (fs : FilterState) (favorites : List String) :
    List Book :=
  favStage fs.showFavoritesOnly favorites
    (categoryStage fs.selectedCategory
      (authorStage fs.selectedAuthor
        (searchStage fs.searchQuery books)))

/-- The `favoriteCount` computed property: the number of catalog books whose
key is a favorite. -/
def favoriteCount (books : List Book) (favorites : List String) : Nat :=
  (books.filter (fun b => isFavorite favorites b)).length

/-- A conditional filter stage is a sublist of its input. -/
theorem stage_sublist (c : Prop) [Decidable c] (p : Book → Bool) (l : List Book) :
    (if c then l.filter p else l).Sublist l := by
  split
  · exact List.filter_sublist l
  · exact List.Sublist.refl l

/-- A conditional filter stage is monotone with respect to sublists. -/
theorem stage_mono (c : Prop) [Decidable c] (p : Book → Bool) {l m : List Book}
    (h : l.Sublist m) :
    (if c then l.filter p else l).Sublist (if c then m.filter p else m) := by
  split
  · exact h.filter p
  · exact h

/-- Books surviving a conditional filter stage satisfy its predicate when the
stage is active. -/
theorem stage_mem (c : Prop) [Decidable c] (p : Book → Bool) (l : List Book)
    (b : Book) (hb : b ∈ (if c then l.filter p else l)) :
    b ∈ l ∧ (c → p b = true) := by
  split at hb
  · exact ⟨(List.mem_filter.1 hb).1, fun _ => (List.mem_filter.1 hb).2⟩
  · exact ⟨hb, fun hc => absurd hc (by assumption)⟩

theorem searchStage_sublist (q : String) (l : List Book) :
    (searchStage q l).Sublist l := stage_sublist _ _ _

theorem authorStage_sublist (a : String) (l : List Book) :
    (authorStage a l).Sublist l := stage_sublist _ _ _

theorem categoryStage_sublist (c : String) (l : List Book) :
    (categoryStage c l).Sublist l := stage_sublist _ _ _

theorem favStage_sublist (favOnly : Bool) (favorites : List String) (l : List Book) :
    (favStage favOnly favorites l).Sublist l := stage_sublist _ _ _

theorem authorStage_mono (a : String) {l m : List Book} (h : l.Sublist m) :
    (authorStage a l).Sublist (authorStage a m) := stage_mono _ _ h

theorem categoryStage_mono (c : String) {l m : List Book} (h : l.Sublist m) :
    (categoryStage c l).Sublist (categoryStage c m) := stage_mono _ _ h

theorem favStage_mono (favOnly : Bool) (favorites : List String) {l m : List Book}
    (h : l.Sublist m) :
    (favStage favOnly favorites l).Sublist (favStage favOnly favorites m) := stage_mono _ _ h

theorem searchStage_mem {q : String} {l : List Book} {b : Book}
    (hb : b ∈ searchStage q l) :
    b ∈ l ∧ (jsTrim q ≠ "" → jsIncludes (jsToLower b.name) (jsTrim (jsToLower q)) = true) :=
  stage_mem _ _ _ _ hb

theorem authorStage_mem {a : String} {l : List Book} {b : Book}
    (hb : b ∈ authorStage a l) :
    b ∈ l ∧ (a ≠ "" → b.author = a) := by
  have h := stage_mem _ _ _ _ hb
  exact ⟨h.1, fun ha => by simpa using h.2 ha⟩

theorem categoryStage_mem {c : String} {l : List Book} {b : Book}
    (hb : b ∈ categoryStage c l) :
    b ∈ l ∧ (c ≠ "" → b.category = some c) := by
  have h := stage_mem _ _ _ _ hb
  exact ⟨h.1, fun hc => by simpa using h.2 hc⟩

theorem favStage_mem {favOnly : Bool} {favorites : List String} {l : List Book} {b : Book}
    (hb : b ∈ favStage favOnly favorites l) :
    b ∈ l ∧ (favOnly = true → getFavoriteKey b ∈ favorites) := by
  have h := stage_mem (favOnly = true) _ _ _ hb
  refine ⟨h.1, fun hon => ?_⟩
  have := h.2 hon
  simpa [isFavorite] using this

/-- C1 (amended): the filtered view is an order-preserving subsequence of the
catalog, and every returned book satisfies each active constraint — the
lowercased name contains the *trimmed* lowercased search query (the code
trims the query before matching, and a whitespace-only query imposes no
constraint), the author and category match exactly when selected, and the
composite key is a favorite when `showFavoritesOnly` is set. -/
theorem filteredBooks_sound (books : List Book) (fs : FilterState)
    (favorites : List String) :
    (filteredBooks books fs favorites).Sublist books ∧
    ∀ b ∈ filteredBooks books fs favorites,
      (jsTrim fs.searchQuery ≠ "" →
        jsIncludes (jsToLower b.name) (jsTrim (jsToLower fs.searchQuery)) = true) ∧
      (fs.selectedAuthor ≠ "" → b.author = fs.selectedAuthor) ∧
      (fs.selectedCategory ≠ "" → b.category = some fs.selectedCategory) ∧
      (fs.showFavoritesOnly = true → getFavoriteKey b ∈ favorites) := by
  constructor
  · exact ((((favStage_sublist _ _ _).trans (categoryStage_sublist _ _)).trans
      (authorStage_sublist _ _)).trans (searchStage_sublist _ _))
  · intro b hb
    unfold filteredBooks at hb
    obtain ⟨hb3, hfav⟩ := favStage_mem hb
    obtain ⟨hb2, hcat⟩ := categoryStage_mem hb3
    obtain ⟨hb1, hauth⟩ := authorStage_mem hb2
    obtain ⟨_, hsearch⟩ := searchStage_mem hb1
    exact ⟨hsearch, hauth, hcat, hfav⟩

/-- The book and filter state exhibiting the divergence between the claimed
search constraint and the implemented one: the query carries a trailing
space, which the code trims away before matching. -/
def bkX : Book :=
  { name := "x", author := "a", category := none, isCoverImg := true,
    size_in_bytes := none }

def fsUntrimmed : FilterState :=
  { searchQuery := "x ", selectedAuthor := "", selectedCategory := "",
    showFavoritesOnly := false }

/-- C1 counterexample: with the one-book catalog `[bkX]` and search query
`"x "`, the book is returned by `filteredBooks`, yet its lowercased name does
not contain the (untrimmed) lowercased search query — refuting the claim that
every returned book's lowercased name contains the lowercased `searchQuery`. -/
theorem filteredBooks_untrimmed_query_counterexample :
    bkX ∈ filteredBooks [bkX] fsUntrimmed [] ∧
    jsIncludes (jsToLower bkX.name) (jsToLower fsUntrimmed.searchQuery) = false := by
  decide

/-- Witness for `filteredBooks_sound` at a concrete input. -/
theorem filteredBooks_sound_witness :
    bkX.author = "a" :=
  ((filteredBooks_sound [bkX]
      { searchQuery := "", selectedAuthor := "a", selectedCategory := "",
        showFavoritesOnly := false } []).2
    bkX (by decide)).2.1 (by decide)

/-- C8: activating one additional constraint on a `FilterState` whose
corresponding field was previously unset never increases the size of the
filtered view. -/
theorem filteredBooks_extra_constraint_mono (books : List Book)
    (favorites : List String) (fs : FilterState) (q a c : String) :
    (fs.searchQuery = "" →
      (filteredBooks books { fs with searchQuery := q } favorites).length ≤
        (filteredBooks books fs favorites).length) ∧
    (fs.selectedAuthor = "" →
      (filteredBooks books { fs with selectedAuthor := a } favorites).length ≤
        (filteredBooks books fs favorites).length) ∧
    (fs.selectedCategory = "" →
      (filteredBooks books { fs with selectedCategory := c } favorites).length ≤
        (filteredBooks books fs favorites).length) ∧
    (fs.showFavoritesOnly = false →
      (filteredBooks books { fs with showFavoritesOnly := true } favorites).length ≤
        (filteredBooks books fs favorites).length) := by
  refine ⟨fun hq => ?_, fun ha => ?_, fun hc => ?_, fun hf => ?_⟩
  · have h1 : (searchStage q books).Sublist (searchStage fs.searchQuery books) := by
      rw [hq]
      show (searchStage q books).Sublist (searchStage "" books)
      have heq : searchStage "" books = books := by
        unfold searchStage
        exact if_neg (fun h => h rfl)
      rw [heq]
      exact searchStage_sublist q books
    exact List.Sublist.length_le
      (favStage_mono _ _ (categoryStage_mono _ (authorStage_mono _ h1)))
  · have h2 : (authorStage a (searchStage fs.searchQuery books)).Sublist
        (authorStage fs.selectedAuthor (searchStage fs.searchQuery books)) := by
      rw [ha]
      show (authorStage a _).Sublist (authorStage "" _)
      have heq : authorStage "" (searchStage fs.searchQuery books) =
          searchStage fs.searchQuery books := by
        unfold authorStage
        exact if_neg (fun h => h rfl)
      rw [heq]
      exact authorStage_sublist a _
    exact List.Sublist.length_le (favStage_mono _ _ (categoryStage_mono _ h2))
  · have h3 : (categoryStage c (authorStage fs.selectedAuthor
        (searchStage fs.searchQuery books))).Sublist
        (categoryStage fs.selectedCategory (authorStage fs.selectedAuthor
          (searchStage fs.searchQuery books))) := by
      rw [hc]
      show (categoryStage c _).Sublist (categoryStage "" _)
      have heq : categoryStage "" (authorStage fs.selectedAuthor
          (searchStage fs.searchQuery books)) =
          authorStage fs.selectedAuthor (searchStage fs.searchQuery books) := by
        unfold categoryStage
        exact if_neg (fun h => h rfl)
      rw [heq]
      exact categoryStage_sublist c _
    exact List.Sublist.length_le (favStage_mono _ _ h3)
  · have h4 : (favStage true favorites (categoryStage fs.selectedCategory
        (authorStage fs.selectedAuthor (searchStage fs.searchQuery books)))).Sublist
        (favStage fs.showFavoritesOnly favorites (categoryStage fs.selectedCategory
          (authorStage fs.selectedAuthor (searchStage fs.searchQuery books)))) := by
      rw [hf]
      exact favStage_sublist true favorites _
    exact List.Sublist.length_le h4

/-- Witness for `filteredBooks_extra_constraint_mono` at a concrete input. -/
theorem filteredBooks_extra_constraint_mono_witness :
    (filteredBooks [bkX]
        { searchQuery := "", selectedAuthor := "b", selectedCategory := "",
          showFavoritesOnly := false } []).length ≤
      (filteredBooks [bkX]
        { searchQuery := "", selectedAuthor := "", selectedCategory := "",
          showFavoritesOnly := false } []).length :=
  (filteredBooks_extra_constraint_mono [bkX] []
    { searchQuery := "", selectedAuthor := "", selectedCategory := "",
      showFavoritesOnly := false } "" "b" "").2.1 rfl

/-- State of the favorites store: the in-memory `favorites` ref and the
`epub-favorites` slot of `localStorage`.  The stored value is the
deserialized array: `JSON.stringify`/`JSON.parse` on arrays of strings is an
injective round trip. -/
structure FavState where
  favorites : List String
  storage : List String
  deriving Repr, DecidableEq

/-- `saveFavorites`: write-through of the in-memory array to storage. -/
def saveFavorites (s : FavState) : FavState :=
  { s with storage := s.favorites }

/-- `toggleFavorite`: `indexOf` finds the first occurrence of the composite
key; `splice(index, 1)` removes it when present (`indexOf > -1`), `push`
appends it when absent; then `saveFavorites` persists. -/
def toggleFavorite (b : Book) (s : FavState) : FavState :=
  let key := getFavoriteKey b
  let favs :=
    if key ∈ s.favorites then s.favorites.erase key else s.favorites ++ [key]
  saveFavorites { s with favorites := favs }

/-- The favorites array after a toggle, unfolded. -/
theorem toggleFavorite_favorites (b : Book) (s : FavState) :
    (toggleFavorite b s).favorites =
      if getFavoriteKey b ∈ s.favorites then s.favorites.erase (getFavoriteKey b)
      else s.favorites ++ [getFavoriteKey b] := rfl

/-- C4: toggling a favorite twice restores the membership status of the
book's composite key (for a duplicate-free favorite set, which is what every
reachable favorites array is), and after each single toggle the persisted
storage equals the in-memory set. -/
theorem toggleFavorite_roundtrip (b : Book) (s : FavState)
    (h : s.favorites.Nodup) :
    (getFavoriteKey b ∈ (toggleFavorite b (toggleFavorite b s)).favorites ↔
      getFavoriteKey b ∈ s.favorites) ∧
    (toggleFavorite b s).storage = (toggleFavorite b s).favorites ∧
    (toggleFavorite b (toggleFavorite b s)).storage =
      (toggleFavorite b (toggleFavorite b s)).favorites := by
  refine ⟨?_, rfl, rfl⟩
  by_cases hm : getFavoriteKey b ∈ s.favorites
  · have h1 : (toggleFavorite b s).favorites =
        s.favorites.erase (getFavoriteKey b) := by
      rw [toggleFavorite_favorites, if_pos hm]
    have hnm : getFavoriteKey b ∉ (toggleFavorite b s).favorites := by
      rw [h1]
      intro hmem
      exact ((List.Nodup.mem_erase_iff h).1 hmem).1 rfl
    have h2 : (toggleFavorite b (toggleFavorite b s)).favorites =
        (toggleFavorite b s).favorites ++ [getFavoriteKey b] := by
      rw [toggleFavorite_favorites, if_neg hnm]
    rw [h2]
    simp [hm]
  · have h1 : (toggleFavorite b s).favorites =
        s.favorites ++ [getFavoriteKey b] := by
      rw [toggleFavorite_favorites, if_neg hm]
    have hm1 : getFavoriteKey b ∈ (toggleFavorite b s).favorites := by
      rw [h1]; simp
    have hnd : (toggleFavorite b s).favorites.Nodup := by
      rw [h1]
      refine List.nodup_append.2 ⟨h, List.nodup_singleton _, ?_⟩
      intro a ha hak
      simp only [List.mem_singleton] at hak
      exact hm (hak ▸ ha)
    have h2 : (toggleFavorite b (toggleFavorite b s)).favorites =
        (toggleFavorite b s).favorites.erase (getFavoriteKey b) := by
      rw [toggleFavorite_favorites, if_pos hm1]
    rw [h2]
    constructor
    · intro hmem
      exact absurd rfl ((List.Nodup.mem_erase_iff hnd).1 hmem).1
    · intro hmem
      exact absurd hmem hm

/-- Witness for `toggleFavorite_roundtrip` at a concrete input. -/
theorem toggleFavorite_roundtrip_witness :
    getFavoriteKey bkX ∈
        (toggleFavorite bkX (toggleFavorite bkX ⟨[], []⟩)).favorites ↔
      getFavoriteKey bkX ∈ ([] : List String) :=
  (toggleFavorite_roundtrip bkX ⟨[], []⟩ List.nodup_nil).1

/-- C10: the displayed favorite count is the number of catalog books whose
composite key is a favorite; a favorite key matching no catalog book
contributes nothing to it. -/
theorem favoriteCount_spec (books : List Book) (favorites : List String)
    (k : String) (h : ∀ b ∈ books, getFavoriteKey b ≠ k) :
    favoriteCount books favorites =
      books.countP (fun b => decide (getFavoriteKey b ∈ favorites)) ∧
    favoriteCount books (k :: favorites) = favoriteCount books favorites := by
  constructor
  · unfold favoriteCount
    rw [← List.countP_eq_length_filter]
    refine List.countP_congr ?_
    intro b _
    by_cases hb : getFavoriteKey b ∈ favorites <;> simp [isFavorite, hb]
  · unfold favoriteCount
    have hcongr : ∀ b ∈ books,
        isFavorite (k :: favorites) b = isFavorite favorites b := by
      intro b hb
      have hk := h b hb
      simp [isFavorite, hk]
    rw [List.filter_congr hcongr]

/-- Witness for `favoriteCount_spec` at a concrete input. -/
theorem favoriteCount_spec_witness :
    favoriteCount [bkX] ["z"] = favoriteCount [bkX] [] :=
  (favoriteCount_spec [bkX] [] "z" (by decide)).2

/-- Catalog loading state: the `books`, `loading` and `error` refs. -/
structure CatalogState where
  books : List Book
  loading : Bool
  error : Option String
  deriving Repr, DecidableEq

def initCatalogState : CatalogState :=
  { books := [], loading := true, error := none }

/-- The size filter inside `onMounted`:
`!book.size_in_bytes || book.size_in_bytes > 1407`.  An absent *or zero*
size is falsy, so such entries pass; otherwise the size must exceed 1407. -/
def keepBook (b : Book) : Bool :=
  match b.size_in_bytes with
  | none => true
  | some n => n == 0 || decide (1407 < n)

/-- The `onMounted` catalog load.  The hook runs once per page session and
issues exactly one request (no retry), so the model consumes one response:
`some` of the parsed body's `book` array, or `none` for a network/HTTP
failure.  On success `books` becomes the array with falsy-or-large sizes
kept; on failure the error message is set and `books` is untouched;
`loading` is cleared in either case (`finally`). -/
def loadCatalog (resp : Option (List Book)) (s : CatalogState) : CatalogState :=
  match resp with
  | some bs => { s with books := bs.filter keepBook, loading := false }
  | none =>
    { s with error := some "Failed to load books.", loading := false }

/-- A catalog entry with `size_in_bytes` zero: below the data-quality
threshold, yet kept by the code because `!0` is truthy in JavaScript. -/
def bkZero : Book :=
  { name := "z", author := "a", category := none, isCoverImg := false,
    size_in_bytes := some 0 }

/-- C5 counterexample: a successful response containing a single book of
size 0 — below the 1407-byte threshold — ends up in the Catalog, refuting
the claim that exactly the entries with `size_in_bytes` absent or greater
than 1407 are kept. -/
theorem loadCatalog_size_zero_counterexample :
    (loadCatalog (some [bkZero]) initCatalogState).books = [bkZero] ∧
    bkZero.size_in_bytes = some 0 := by
  decide

/-- C5 (amended): on a successful response the Catalog is the response's
`book` array with entries of falsy (`absent or zero`) or greater-than-1407
size kept, preserving order; on failure the error flag is set and the
Catalog stays empty; `loading` is cleared in both cases.  One response is
consumed per session (the hook runs once, no retry). -/
theorem loadCatalog_spec (resp : Option (List Book)) :
    (∀ bs, resp = some bs →
      (loadCatalog resp initCatalogState).books = bs.filter keepBook ∧
      (loadCatalog resp initCatalogState).books.Sublist bs ∧
      (loadCatalog resp initCatalogState).error = none ∧
      (loadCatalog resp initCatalogState).loading = false ∧
      ∀ b ∈ (loadCatalog resp initCatalogState).books,
        b.size_in_bytes = none ∨ b.size_in_bytes = some 0 ∨
          ∃ n, b.size_in_bytes = some n ∧ 1407 < n) ∧
    (resp = none →
      (loadCatalog resp initCatalogState).books = [] ∧
      (loadCatalog resp initCatalogState).error = some "Failed to load books." ∧
      (loadCatalog resp initCatalogState).loading = false) := by
  constructor
  · intro bs hbs
    subst hbs
    refine ⟨rfl, List.filter_sublist bs, rfl, rfl, ?_⟩
    intro b hb
    have hk : keepBook b = true := List.of_mem_filter hb
    unfold keepBook at hk
    cases hsz : b.size_in_bytes with
    | none => exact Or.inl rfl
    | some n =>
      rw [hsz] at hk
      simp only [Bool.or_eq_true, beq_iff_eq, decide_eq_true_eq] at hk
      rcases hk with h0 | hgt
      · exact Or.inr (Or.inl (by rw [h0]))
      · exact Or.inr (Or.inr ⟨n, rfl, hgt⟩)
  · intro hn
    subst hn
    exact ⟨rfl, rfl, rfl⟩

/-- Witness for `loadCatalog_spec` at a concrete input. -/
theorem loadCatalog_spec_witness :
    (loadCatalog (some [bkZero]) initCatalogState).error = none :=
  ((loadCatalog_spec (some [bkZero])).1 [bkZero] rfl).2.2.1

/-- `getCacheKey` from the source: the composite key `author|filename`. -/
def getCacheKey (author filename : String) : String :=
  author ++ "|" ++ filename

/-- The cover-image URL `base/author/{author}/{filename}.jpg`
(`encodeURIComponent` is the identity in this model; only determinism of the
URL construction matters for the stated properties). -/
def imageUrl (baseUrl author filename : String) : String :=
  baseUrl ++ "/author/" ++ author ++ "/" ++ filename ++ ".jpg"

/-- Lookup in the `cachedImageUrls` map (a JavaScript `Map` keyed by
strings), modelled as an association list. -/
def mapLookup (m : List (String × String)) (k : String) : Option String :=
  match m with
  | [] => none
  | (k', v) :: rest => if k' = k then some v else mapLookup rest k

/-- `Map.set`: replace the binding when the key is present, append otherwise. -/
def mapSet (m : List (String × String)) (k v : String) : List (String × String) :=
  match m with
  | [] => [(k, v)]
  | (k', v') :: rest =>
    if k' = k then (k, v) :: rest else (k', v') :: mapSet rest k v

/-- Key-set insertion for the `localStorage` `img-cache-…` flags: setting a
key's flag to `'true'` makes it present; setting an already set flag is a
no-op on the key set. -/
def insertKey (l : List String) (k : String) : List String :=
  if k ∈ l then l else l ++ [k]

/-- State of the image cache: the session `cachedImageUrls` map, the durable
`img-cache-{author}|{filename}` flags (as the set of flagged keys), the
number of network fetches performed this session, and a counter generating
fresh `URL.createObjectURL` handles. -/
structure ImgState where
  cachedImageUrls : List (String × String)
  imgFlags : List String
  fetchCount : Nat
  blobCounter : Nat
  deriving Repr, DecidableEq

/-- `isImageCached`: the durable flag for the key is set. -/
def isImageCached (s : ImgState) (author filename : String) : Bool :=
  s.imgFlags.contains (getCacheKey author filename)

/-- The fresh object URL produced by `URL.createObjectURL` for the next blob. -/
def newBlobUrl (s : ImgState) : String :=
  "blob:" ++ toString s.blobCounter

/-- `cacheImage author filename`: memory hit returns the stored handle with no
fetch; otherwise, if the durable flag is set, re-download (on success store
the handle and return it; on a thrown error or non-ok response fall through);
then the first-time download (on success store the handle, set the durable
flag and return the handle); if everything failed, return the direct remote
URL.  All failures are caught (`try`/`catch`), so the function is total and
every return path yields `some` value — it never returns `null`/`undefined`.

`oracle n` is the outcome of the n-th fetch of the session (false covers both
a thrown network error and a non-ok response, which the code treats alike). -/
def cacheImage (baseUrl : String) (oracle : Nat → Bool) (author filename : String)
    (s : ImgState) : Option String × ImgState :=
  let cacheKey := getCacheKey author filename
  match mapLookup s.cachedImageUrls cacheKey with
  | some url => (some url, s)
  | none =>
    let afterMarked : Option String × ImgState :=
      if isImageCached s author filename then
        let ok := oracle s.fetchCount
        let s1 := { s with fetchCount := s.fetchCount + 1 }
        if ok then
          let url := newBlobUrl s1
          (some url,
           { s1 with
              cachedImageUrls := mapSet s1.cachedImageUrls cacheKey url,
              blobCounter := s1.blobCounter + 1 })
        else (none, s1)
      else (none, s)
    match afterMarked with
    | (some url, s') => (some url, s')
    | (none, s') =>
      let ok := oracle s'.fetchCount
      let s1 := { s' with fetchCount := s'.fetchCount + 1 }
      if ok then
        let url := newBlobUrl s1
        (some url,
         { s1 with
            cachedImageUrls := mapSet s1.cachedImageUrls cacheKey url,
            blobCounter := s1.blobCounter + 1,
            imgFlags := insertKey s1.imgFlags cacheKey })
      else
        (some (imageUrl baseUrl author filename), s1)

/-- `getImageUrl`: memory hit, else delegate to `cacheImage`. -/
def getImageUrl (baseUrl : String) (oracle : Nat → Bool) (author filename : String)
    (s : ImgState) : Option String × ImgState :=
  match mapLookup s.cachedImageUrls (getCacheKey author filename) with
  | some url => (some url, s)
  | none => cacheImage baseUrl oracle author filename s

theorem mapLookup_mapSet_self (m : List (String × String)) (k v : String) :
    mapLookup (mapSet m k v) k = some v := by
  induction m with
  | nil => simp [mapSet, mapLookup]
  | cons hd tl ih =>
    unfold mapSet
    by_cases hk : hd.1 = k
    · simp [hk, mapLookup]
    · simp [hk, mapLookup, ih]

theorem mem_insertKey {l : List String} {k key : String}
    (h : k ∈ insertKey l key) : k ∈ l ∨ k = key := by
  unfold insertKey at h
  split at h
  · exact Or.inl h
  · rcases List.mem_append.1 h with h' | h'
    · exact Or.inl h'
    · exact Or.inr (List.mem_singleton.1 h')

/-- C6 counterexample: with no in-memory handle and no durable flag for the
key, a failing fetch makes `cacheImage` return `some` of the direct remote
URL — not `null` as claimed (the fallback happens inside `cacheImage`, not in
its caller). -/
theorem cacheImage_failure_counterexample :
    (cacheImage "B" (fun _ => false) "a" "f" ⟨[], [], 0, 0⟩).1 =
      some (imageUrl "B" "a" "f") := rfl

/-- C6 (amended): for a key with no in-memory handle whose fetches fail
(network error or non-ok response), `cacheImage` returns the direct uncached
remote URL itself — the fallback is performed inside the function rather than
signalled by `null` — and the failure is caught: the function returns
normally and leaves the blob map and the durable flags untouched. -/
theorem cacheImage_failure_fallback (baseUrl : String) (oracle : Nat → Bool)
    (author filename : String) (s : ImgState)
    (hmem : mapLookup s.cachedImageUrls (getCacheKey author filename) = none)
    (h1 : oracle s.fetchCount = false)
    (h2 : oracle (s.fetchCount + 1) = false) :
    (cacheImage baseUrl oracle author filename s).1 =
      some (imageUrl baseUrl author filename) ∧
    (cacheImage baseUrl oracle author filename s).2.cachedImageUrls =
      s.cachedImageUrls ∧
    (cacheImage baseUrl oracle author filename s).2.imgFlags = s.imgFlags := by
  by_cases hflag : isImageCached s author filename = true
  · simp [cacheImage, hmem, hflag, h1, h2]
  · simp only [Bool.not_eq_true] at hflag
    simp [cacheImage, hmem, hflag, h1]

/-- Witness for `cacheImage_failure_fallback` at a concrete input. -/
theorem cacheImage_failure_fallback_witness :
    (cacheImage "B" (fun _ => false) "a" "f" ⟨[], [], 0, 0⟩).2.imgFlags =
      ([] : List String) :=
  (cacheImage_failure_fallback "B" (fun _ => false) "a" "f" ⟨[], [], 0, 0⟩
    rfl rfl rfl).2.2

/-- C7 counterexample: two successive `getImageUrl` calls for the same key,
each of whose fetches fails, perform two network fetches in total — a failed
fetch is not memoized, refuting the claimed at-most-one-fetch bound. -/
theorem getImageUrl_refetch_counterexample :
    ((getImageUrl "B" (fun _ => false) "a" "f"
        ((getImageUrl "B" (fun _ => false) "a" "f" ⟨[], [], 0, 0⟩).2)).2).fetchCount
      = 2 := rfl

/-- C7 (amended): a memory hit performs no fetch and leaves the state
unchanged, and for a key with no in-memory handle — durably flagged or not —
whose first fetch succeeds, the two successive calls perform exactly one
fetch in total: the first stores the handle after one fetch, the second is a
pure memory hit. -/
theorem getImageUrl_memoized (baseUrl : String) (oracle : Nat → Bool)
    (author filename : String) (s : ImgState) :
    (∀ url, mapLookup s.cachedImageUrls (getCacheKey author filename) = some url →
      getImageUrl baseUrl oracle author filename s = (some url, s)) ∧
    (mapLookup s.cachedImageUrls (getCacheKey author filename) = none →
      oracle s.fetchCount = true →
      (getImageUrl baseUrl oracle author filename s).2.fetchCount =
        s.fetchCount + 1 ∧
      getImageUrl baseUrl oracle author filename
          (getImageUrl baseUrl oracle author filename s).2 =
        ((getImageUrl baseUrl oracle author filename s).1,
         (getImageUrl baseUrl oracle author filename s).2)) := by
  constructor
  · intro url hu
    simp [getImageUrl, hu]
  · intro hnone hok
    by_cases hflag : isImageCached s author filename = true
    · have hred : getImageUrl baseUrl oracle author filename s =
          (some (newBlobUrl { s with fetchCount := s.fetchCount + 1 }),
           { s with
              fetchCount := s.fetchCount + 1,
              cachedImageUrls := mapSet s.cachedImageUrls
                (getCacheKey author filename)
                (newBlobUrl { s with fetchCount := s.fetchCount + 1 }),
              blobCounter := s.blobCounter + 1 }) := by
        simp [getImageUrl, cacheImage, hnone, hflag, hok]
      rw [hred]
      refine ⟨rfl, ?_⟩
      simp [getImageUrl, mapLookup_mapSet_self]
    · simp only [Bool.not_eq_true] at hflag
      have hred : getImageUrl baseUrl oracle author filename s =
          (some (newBlobUrl { s with fetchCount := s.fetchCount + 1 }),
           { s with
              fetchCount := s.fetchCount + 1,
              cachedImageUrls := mapSet s.cachedImageUrls
                (getCacheKey author filename)
                (newBlobUrl { s with fetchCount := s.fetchCount + 1 }),
              blobCounter := s.blobCounter + 1,
              imgFlags := insertKey s.imgFlags (getCacheKey author filename) }) := by
        simp [getImageUrl, cacheImage, hnone, hflag, hok]
      rw [hred]
      refine ⟨rfl, ?_⟩
      simp [getImageUrl, mapLookup_mapSet_self]

/-- Witness for `getImageUrl_memoized` at a concrete input: a durably-flagged
key with no in-memory handle and a succeeding fetch. -/
theorem getImageUrl_memoized_witness :
    (getImageUrl "B" (fun _ => true) "a" "f"
        ⟨[], ["a" ++ "|" ++ "f"], 0, 0⟩).2.fetchCount = 0 + 1 :=
  (((getImageUrl_memoized "B" (fun _ => true) "a" "f"
      ⟨[], ["a" ++ "|" ++ "f"], 0, 0⟩).2) rfl rfl).1

/-- C9: a failed fetch mutates nothing — the in-memory blob map and the
durable flags are exactly as before the call — and a key newly flagged
durable by a call is the call's own key and has a blob handle stored in the
same successful path. -/
theorem cacheImage_flag_discipline (baseUrl author filename : String) :
    (∀ (oracle : Nat → Bool) (s : ImgState),
      oracle s.fetchCount = false → oracle (s.fetchCount + 1) = false →
      (cacheImage baseUrl oracle author filename s).2.cachedImageUrls =
        s.cachedImageUrls ∧
      (cacheImage baseUrl oracle author filename s).2.imgFlags = s.imgFlags) ∧
    (∀ (oracle : Nat → Bool) (s : ImgState) (k : String),
      k ∈ (cacheImage baseUrl oracle author filename s).2.imgFlags →
      k ∉ s.imgFlags →
      k = getCacheKey author filename ∧
      (mapLookup (cacheImage baseUrl oracle author filename s).2.cachedImageUrls
        k).isSome = true) := by
  constructor
  · intro oracle s h1 h2
    cases hmem : mapLookup s.cachedImageUrls (getCacheKey author filename) with
    | some url => simp [cacheImage, hmem]
    | none =>
      by_cases hflag : isImageCached s author filename = true
      · simp [cacheImage, hmem, hflag, h1, h2]
      · simp only [Bool.not_eq_true] at hflag
        simp [cacheImage, hmem, hflag, h1]
  · intro oracle s k hk hnk
    cases hmem : mapLookup s.cachedImageUrls (getCacheKey author filename) with
    | some url =>
      rw [cacheImage] at hk
      simp only [hmem] at hk
      exact absurd hk hnk
    | none =>
      by_cases hflag : isImageCached s author filename = true
      · by_cases hok : oracle s.fetchCount = true
        · rw [cacheImage] at hk
          simp only [hmem, hflag, hok, if_true] at hk
          exact absurd hk hnk
        · simp only [Bool.not_eq_true] at hok
          by_cases hok2 : oracle (s.fetchCount + 1) = true
          · have hk' : k ∈ insertKey s.imgFlags (getCacheKey author filename) := by
              rw [cacheImage] at hk
              simpa [hmem, hflag, hok, hok2] using hk
            have hkey : k = getCacheKey author filename := by
              rcases mem_insertKey hk' with h | h
              · exact absurd h hnk
              · exact h
            refine ⟨hkey, ?_⟩
            rw [cacheImage]
            simp [hmem, hflag, hok, hok2, hkey, mapLookup_mapSet_self]
          · simp only [Bool.not_eq_true] at hok2
            rw [cacheImage] at hk
            simp [hmem, hflag, hok, hok2] at hk
            exact absurd hk hnk
      · simp only [Bool.not_eq_true] at hflag
        by_cases hok : oracle s.fetchCount = true
        · have hk' : k ∈ insertKey s.imgFlags (getCacheKey author filename) := by
            rw [cacheImage] at hk
            simpa [hmem, hflag, hok] using hk
          have hkey : k = getCacheKey author filename := by
            rcases mem_insertKey hk' with h | h
            · exact absurd h hnk
            · exact h
          refine ⟨hkey, ?_⟩
          rw [cacheImage]
          simp [hmem, hflag, hok, hkey, mapLookup_mapSet_self]
        · simp only [Bool.not_eq_true] at hok
          rw [cacheImage] at hk
          simp [hmem, hflag, hok] at hk
          exact absurd hk hnk

/-- Witness for `cacheImage_flag_discipline` at a concrete input. -/
theorem cacheImage_flag_discipline_witness :
    (cacheImage "B" (fun _ => false) "a" "f" ⟨[], [], 0, 0⟩).2.cachedImageUrls =
      ([] : List (String × String)) :=
  ((cacheImage_flag_discipline "B" "a" "f").1 (fun _ => false) ⟨[], [], 0, 0⟩
    rfl rfl).1

/-- The tag carried by a history entry's `state` object: `{bookDetail: true,
bookName}` or `{epubReader: true, bookName}`. -/
inductive HistTag where
  | bookDetail (bookName : String)
  | epubReader (bookName : String)
  deriving Repr, DecidableEq

/-- One browser-history entry: its `state` object (absent for the initial
entry and after `replaceState(null, …)`) and its URL fragment (`none` when
the URL carries no `#…`; the fragment text omits percent-encoding, which the
model takes as the identity). -/
structure HistEntry where
  state : Option HistTag
  hash : Option String
  deriving Repr, DecidableEq

/-- The browser history stack: the list of entries and the index of the
current one (back/forward move the index; `pushState` truncates the forward
entries). -/
structure History where
  entries : List HistEntry
  idx : Nat
  deriving Repr, DecidableEq

/-- The current (top-of-stack) entry. -/
def History.current (h : History) : HistEntry :=
  h.entries.getD h.idx ⟨none, none⟩

/-- `window.history.pushState`: drop the forward entries, append the new
entry, and make it current. -/
def pushState (h : History) (e : HistEntry) : History :=
  { entries := h.entries.take (h.idx + 1) ++ [e], idx := h.idx + 1 }

/-- `window.history.replaceState`: overwrite the current entry in place. -/
def replaceState (h : History) (e : HistEntry) : History :=
  { h with entries := h.entries.set h.idx e }

/-- The component state driving the two modals, together with the browser
history.  `epubBook`/`rendition` (the third-party rendering engine handles)
are opaque to every property stated here and are not modelled; the engine is
assumed to load successfully (the reader-open error path is out of scope). -/
structure AppState where
  books : List Book
  showBookDetail : Bool
  selectedBook : Option Book
  showEpubReader : Bool
  currentBook : Option Book
  hist : History
  deriving Repr, DecidableEq

/-- Page load: both modals closed, a single history entry with neither a
`state` object nor a fragment. -/
def initAppState (books : List Book) : AppState :=
  { books := books, showBookDetail := false, selectedBook := none,
    showEpubReader := false, currentBook := none,
    hist := { entries := [⟨none, none⟩], idx := 0 } }

/-- `showBookDetails`: select the book, open the detail modal, and push a
`{bookDetail, bookName}` entry with fragment `#book-{name}`. -/
def showBookDetails (b : Book) (s : AppState) : AppState :=
  { s with
      selectedBook := some b, showBookDetail := true,
      hist := pushState s.hist
        ⟨some (HistTag.bookDetail b.name), some ("book-" ++ b.name)⟩ }

/-- The shared closing epilogue: `if (window.location.hash)` clear the
fragment with a non-pushing `replaceState(null, …)`. -/
def clearHash (s : AppState) : AppState :=
  if (s.hist.current.hash).isSome then
    { s with hist := replaceState s.hist ⟨none, none⟩ }
  else s

/-- `closeBookDetail`: close the modal, clear the selection, clear the hash. -/
def closeBookDetail (s : AppState) : AppState :=
  clearHash { s with showBookDetail := false, selectedBook := none }

/-- `closeEpubReader`: close the reader (tearing down the engine instance),
clear the current book, clear the hash.  The `skipHistoryBack` parameter of
the source only suppresses re-entrant closing and has no further effect on
this state. -/
def closeEpubReader (s : AppState) : AppState :=
  clearHash { s with showEpubReader := false, currentBook := none }

/-- `openEpubReader`: record the book, open the reader, close the detail
modal (without touching `selectedBook`), and push an `{epubReader, bookName}`
entry with fragment `#reading-{name}`. -/
def openEpubReader (b : Book) (s : AppState) : AppState :=
  { s with
      currentBook := some b, showEpubReader := true, showBookDetail := false,
      hist := pushState s.hist
        ⟨some (HistTag.epubReader b.name), some ("reading-" ++ b.name)⟩ }

/-- `handlePopState`: dispatch on the restored entry's `state` tag — reader
tag: re-open the reader via `openEpubReader` when it is not already open;
detail tag: show the detail view for the named book and close the reader if
open; no tag: close both modals. -/
def handlePopState (s : AppState) : AppState :=
  match s.hist.current.state with
  | some (HistTag.epubReader n) =>
    match s.books.find? (fun b => b.name == n) with
    | some b => if s.showEpubReader then s else openEpubReader b s
    | none => s
  | some (HistTag.bookDetail n) =>
    let s1 :=
      match s.books.find? (fun b => b.name == n) with
      | some b => { s with selectedBook := some b, showBookDetail := true }
      | none => s
    if s1.showEpubReader then closeEpubReader s1 else s1
  | none =>
    let s1 := if s.showEpubReader then closeEpubReader s else s
    if s1.showBookDetail then
      { s1 with showBookDetail := false, selectedBook := none }
    else s1

/-- The user-visible operations of the navigation state machine.  Each is
guarded by the availability of its trigger in the UI: a book card is
clickable only with no modal open, the read button lives inside the detail
modal, the close buttons on their respective modals, and back/forward by the
history position. -/
inductive Op where
  | selectBook (b : Book)
  | openReader
  | closeDetail
  | closeReader
  | back
  | forward
  deriving Repr, DecidableEq

def step (s : AppState) (op : Op) : AppState :=
  match op with
  | Op.selectBook b =>
    if s.showBookDetail = false ∧ s.showEpubReader = false ∧ b ∈ s.books then
      showBookDetails b s
    else s
  | Op.openReader =>
    match s.selectedBook with
    | some b =>
      if s.showBookDetail = true ∧ s.showEpubReader = false then
        openEpubReader b s
      else s
    | none => s
  | Op.closeDetail =>
    if s.showBookDetail = true then closeBookDetail s else s
  | Op.closeReader =>
    if s.showEpubReader = true then closeEpubReader s else s
  | Op.back =>
    if 0 < s.hist.idx then
      handlePopState { s with hist := { s.hist with idx := s.hist.idx - 1 } }
    else s
  | Op.forward =>
    if s.hist.idx + 1 < s.hist.entries.length then
      handlePopState { s with hist := { s.hist with idx := s.hist.idx + 1 } }
    else s

/-- Execute a sequence of operations from the freshly loaded page. -/
def run (books : List Book) (ops : List Op) : AppState :=
  ops.foldl step (initAppState books)

/-- C2 counterexample: select a book, open the reader, press browser back.
The popstate handler restores the detail view, but while closing the reader
it clears the restored entry's hash and `state` with `replaceState(null,…)`:
the detail modal ends up open while the current top-of-stack entry carries no
tag — refuting the claimed correspondence between the open modal and the
current entry's tag. -/
theorem historySync_claim_counterexample :
    (run [bkX] [Op.selectBook bkX, Op.openReader, Op.back]).showBookDetail
      = true ∧
    ((run [bkX] [Op.selectBook bkX, Op.openReader, Op.back]).hist.current).state
      = none := by
  decide

/-- C3 counterexample: after select + open-reader the history holds three
entries (initial, detail, reader); back, back, forward, forward — four pure
browser-navigation events — leave it with four: the popstate handler, on
restoring the reader entry with the reader closed, calls `openEpubReader`,
which pushes a new history entry.  This refutes the claim that the popstate
handler never pushes and that only user-initiated forward actions push. -/
theorem popState_push_counterexample :
    (run [bkX] [Op.selectBook bkX, Op.openReader]).hist.entries.length = 3 ∧
    (run [bkX] [Op.selectBook bkX, Op.openReader,
        Op.back, Op.back, Op.forward, Op.forward]).hist.entries.length = 4 := by
  decide

/-- Well-formedness of one history entry with respect to the catalog: the
fragment is present exactly when the `state` tag is, and a tagged name
resolves to a catalog book (entries are only ever pushed for books of the
catalog). -/
def entryOK (books : List Book) (e : HistEntry) : Prop :=
  (e.hash.isSome ↔ e.state.isSome) ∧
  (∀ n, e.state = some (HistTag.bookDetail n) → ∃ b ∈ books, b.name = n) ∧
  (∀ n, e.state = some (HistTag.epubReader n) → ∃ b ∈ books, b.name = n)

/-- The part of the reachable-state invariant that survives moving the
history index, before the popstate handler has run. -/
def PreInv (s : AppState) : Prop :=
  s.hist.idx < s.hist.entries.length ∧
  (∀ e ∈ s.hist.entries, entryOK s.books e) ∧
  ¬(s.showBookDetail = true ∧ s.showEpubReader = true) ∧
  (∀ b, s.selectedBook = some b → b ∈ s.books)

/-- The reachable-state invariant: additionally, a tagged current entry has
its modal open. -/
def Inv (s : AppState) : Prop :=
  PreInv s ∧
  (∀ n, (s.hist.current).state = some (HistTag.bookDetail n) →
    s.showBookDetail = true) ∧
  (∀ n, (s.hist.current).state = some (HistTag.epubReader n) →
    s.showEpubReader = true)

theorem current_mem (h : History) (hidx : h.idx < h.entries.length) :
    h.current ∈ h.entries := by
  unfold History.current
  rw [List.getD_eq_getElem _ _ hidx]
  exact List.getElem_mem hidx

theorem current_pushState (h : History) (e : HistEntry)
    (hidx : h.idx < h.entries.length) :
    (pushState h e).current = e := by
  unfold pushState History.current
  have hlen : (h.entries.take (h.idx + 1)).length = h.idx + 1 := by
    rw [List.length_take]
    omega
  have hle : (h.entries.take (h.idx + 1)).length ≤ h.idx + 1 := by
    rw [hlen]
  rw [List.getD_append_right _ _ _ _ hle, hlen]
  simp

theorem pushState_idx_lt (h : History) (e : HistEntry)
    (hidx : h.idx < h.entries.length) :
    (pushState h e).idx < (pushState h e).entries.length := by
  unfold pushState
  simp only [List.length_take, List.length_append, List.length_singleton]
  omega

theorem mem_pushState {h : History} {e e' : HistEntry}
    (hm : e' ∈ (pushState h e).entries) : e' ∈ h.entries ∨ e' = e := by
  unfold pushState at hm
  rcases List.mem_append.1 hm with h' | h'
  · exact Or.inl (List.mem_of_mem_take h')
  · exact Or.inr (List.mem_singleton.1 h')

theorem current_replaceState (h : History) (e : HistEntry)
    (hidx : h.idx < h.entries.length) :
    (replaceState h e).current = e := by
  unfold replaceState History.current
  rw [List.getD_eq_getElem _ _ (by simpa using hidx)]
  exact List.getElem_set_self _

theorem mem_replaceState {h : History} {e e' : HistEntry}
    (hm : e' ∈ (replaceState h e).entries) : e' ∈ h.entries ∨ e' = e :=
  List.mem_or_eq_of_mem_set hm

theorem entryOK_none (books : List Book) : entryOK books ⟨none, none⟩ := by
  refine ⟨by simp, ?_, ?_⟩ <;> intro n hn <;> simp at hn

/-- Clearing the hash (the closing epilogue) establishes the tag conditions
outright: afterwards the current entry is untagged — or was already untagged,
by entry well-formedness. -/
theorem inv_clearHash {s : AppState} (hpre : PreInv s) : Inv (clearHash s) := by
  obtain ⟨hidx, hent, hflag, hsel⟩ := hpre
  unfold clearHash
  by_cases hh : ((s.hist.current).hash).isSome = true
  · rw [if_pos hh]
    refine ⟨⟨?_, ?_, hflag, hsel⟩, ?_, ?_⟩
    · show s.hist.idx < (replaceState s.hist ⟨none, none⟩).entries.length
      unfold replaceState
      rw [List.length_set]
      exact hidx
    · intro e he
      rcases mem_replaceState he with h' | h'
      · exact hent e h'
      · rw [h']
        exact entryOK_none s.books
    · intro n hn
      rw [current_replaceState _ _ hidx] at hn
      simp at hn
    · intro n hn
      rw [current_replaceState _ _ hidx] at hn
      simp at hn
  · rw [if_neg hh]
    have hok := hent _ (current_mem _ hidx)
    refine ⟨⟨hidx, hent, hflag, hsel⟩, ?_, ?_⟩
    · intro n hn
      exact absurd (hok.1.2 (by simp [hn])) hh
    · intro n hn
      exact absurd (hok.1.2 (by simp [hn])) hh

/-- Opening the reader re-establishes the invariant. -/
theorem inv_openEpubReader {s : AppState} {b : Book} (hpre : PreInv s)
    (hb : b ∈ s.books) : Inv (openEpubReader b s) := by
  obtain ⟨hidx, hent, hflag, hsel⟩ := hpre
  refine ⟨⟨?_, ?_, ?_, ?_⟩, ?_, ?_⟩
  · exact pushState_idx_lt s.hist _ hidx
  · intro e he
    rcases mem_pushState he with h' | h'
    · exact hent e h'
    · rw [h']
      refine ⟨by simp, ?_, ?_⟩
      · intro n hn
        simp at hn
      · intro n hn
        simp only [Option.some.injEq, HistTag.epubReader.injEq] at hn
        exact ⟨b, hb, hn⟩
  · simp [openEpubReader]
  · exact hsel
  · intro n hn
    rw [show (openEpubReader b s).hist = pushState s.hist
          ⟨some (HistTag.epubReader b.name), some ("reading-" ++ b.name)⟩ from rfl,
        current_pushState _ _ hidx] at hn
    simp at hn
  · intro n _
    rfl

/-- Selecting a book (possible only with the reader closed) re-establishes
the invariant. -/
theorem inv_showBookDetails {s : AppState} {b : Book} (hpre : PreInv s)
    (hb : b ∈ s.books) (hr : s.showEpubReader = false) :
    Inv (showBookDetails b s) := by
  obtain ⟨hidx, hent, hflag, hsel⟩ := hpre
  refine ⟨⟨?_, ?_, ?_, ?_⟩, ?_, ?_⟩
  · exact pushState_idx_lt s.hist _ hidx
  · intro e he
    rcases mem_pushState he with h' | h'
    · exact hent e h'
    · rw [h']
      refine ⟨by simp, ?_, ?_⟩
      · intro n hn
        simp only [Option.some.injEq, HistTag.bookDetail.injEq] at hn
        exact ⟨b, hb, hn⟩
      · intro n hn
        simp at hn
  · simp [showBookDetails, hr]
  · intro b' hb'
    simp only [showBookDetails, Option.some.injEq] at hb'
    rw [← hb']
    exact hb
  · intro n _
    rfl
  · intro n hn
    rw [show (showBookDetails b s).hist = pushState s.hist
          ⟨some (HistTag.bookDetail b.name), some ("book-" ++ b.name)⟩ from rfl,
        current_pushState _ _ hidx] at hn
    simp at hn

/-- A state whose current entry is untagged satisfies the invariant as soon
as the pre-invariant holds. -/
theorem inv_untagged {s : AppState} (hpre : PreInv s)
    (hst : (s.hist.current).state = none) : Inv s := by
  refine ⟨hpre, ?_, ?_⟩ <;> intro n hn <;> rw [hst] at hn <;>
    exact Option.noConfusion hn

/-- A state whose current entry is detail-tagged and whose detail modal is
open satisfies the invariant. -/
theorem inv_detail_tagged {s : AppState} (hpre : PreInv s) (n : String)
    (hst : (s.hist.current).state = some (HistTag.bookDetail n))
    (hd : s.showBookDetail = true) : Inv s := by
  refine ⟨hpre, fun m _ => hd, fun m hm => ?_⟩
  rw [hst] at hm
  simp at hm

/-- A state whose current entry is reader-tagged and whose reader is open
satisfies the invariant. -/
theorem inv_reader_tagged {s : AppState} (hpre : PreInv s) (n : String)
    (hst : (s.hist.current).state = some (HistTag.epubReader n))
    (hr : s.showEpubReader = true) : Inv s := by
  refine ⟨hpre, fun m hm => ?_, fun m _ => hr⟩
  rw [hst] at hm
  simp at hm

/-- The popstate handler re-establishes the full invariant from the
index-moved state. -/
theorem inv_handlePopState {s : AppState} (hpre : PreInv s) :
    Inv (handlePopState s) := by
  obtain ⟨hidx, hent, hflag, hsel⟩ := hpre
  have hcur := hent _ (current_mem _ hidx)
  have hlenset : s.hist.idx < (replaceState s.hist ⟨none, none⟩).entries.length := by
    unfold replaceState
    rw [List.length_set]
    exact hidx
  have hmemset : ∀ e ∈ (replaceState s.hist ⟨none, none⟩).entries,
      entryOK s.books e := by
    intro e he
    rcases mem_replaceState he with h' | h'
    · exact hent e h'
    · rw [h']
      exact entryOK_none s.books
  have hcurset : ((replaceState s.hist (⟨none, none⟩ : HistEntry)).current).state
      = none := by
    rw [current_replaceState _ _ hidx]
  cases hst : (s.hist.current).state with
  | none =>
    have hhash : (s.hist.current).hash = none := by
      have h1 := hcur.1
      rw [hst] at h1
      simpa using h1
    by_cases hr : s.showEpubReader = true <;> by_cases hd : s.showBookDetail = true
    · have hrun : handlePopState s =
          { s with
              showEpubReader := false, currentBook := none,
              showBookDetail := false, selectedBook := none } := by
        simp [handlePopState, hst, hr, hd, closeEpubReader, clearHash, hhash]
      rw [hrun]
      exact inv_untagged
        ⟨hidx, hent, by simp, fun b hb => Option.noConfusion hb⟩ hst
    · have hrun : handlePopState s =
          { s with showEpubReader := false, currentBook := none } := by
        simp [handlePopState, hst, hr, hd, closeEpubReader, clearHash, hhash]
      rw [hrun]
      exact inv_untagged ⟨hidx, hent, by simp, hsel⟩ hst
    · have hrun : handlePopState s =
          { s with showBookDetail := false, selectedBook := none } := by
        simp [handlePopState, hst, hr, hd]
      rw [hrun]
      exact inv_untagged
        ⟨hidx, hent, by simp, fun b hb => Option.noConfusion hb⟩ hst
    · have hrun : handlePopState s = s := by
        simp [handlePopState, hst, hr, hd]
      rw [hrun]
      exact inv_untagged ⟨hidx, hent, hflag, hsel⟩ hst
  | some tag =>
    cases tag with
    | bookDetail n =>
      obtain ⟨b, hbmem, hbname⟩ := hcur.2.1 n hst
      obtain ⟨b', hfind, hb'⟩ :
          ∃ b', s.books.find? (fun b2 => b2.name == n) = some b' ∧
            b' ∈ s.books := by
        cases hfs : s.books.find? (fun b2 => b2.name == n) with
        | some b' => exact ⟨b', rfl, List.mem_of_find?_eq_some hfs⟩
        | none =>
          have hsome : (s.books.find? (fun b2 => b2.name == n)).isSome :=
            List.find?_isSome.2 ⟨b, hbmem, by simp [hbname]⟩
          rw [hfs] at hsome
          exact absurd hsome (by simp)
      have hhash : ((s.hist.current).hash).isSome = true :=
        hcur.1.2 (by simp [hst])
      by_cases hr : s.showEpubReader = true
      · have hrun : handlePopState s =
            { s with
                selectedBook := some b', showBookDetail := true,
                showEpubReader := false, currentBook := none,
                hist := replaceState s.hist ⟨none, none⟩ } := by
          simp [handlePopState, hst, hfind, hr, closeEpubReader, clearHash, hhash]
        rw [hrun]
        refine inv_untagged ⟨hlenset, hmemset, by simp, ?_⟩ hcurset
        intro b'' hb''
        have heq : b' = b'' := by simpa using hb''
        rw [← heq]
        exact hb'
      · have hrun : handlePopState s =
            { s with selectedBook := some b', showBookDetail := true } := by
          simp [handlePopState, hst, hfind, hr]
        rw [hrun]
        refine inv_detail_tagged ⟨hidx, hent, fun hc => hr hc.2, ?_⟩ n hst rfl
        intro b'' hb''
        have heq : b' = b'' := by simpa using hb''
        rw [← heq]
        exact hb'
    | epubReader n =>
      obtain ⟨b, hbmem, hbname⟩ := hcur.2.2 n hst
      obtain ⟨b', hfind, hb'⟩ :
          ∃ b', s.books.find? (fun b2 => b2.name == n) = some b' ∧
            b' ∈ s.books := by
        cases hfs : s.books.find? (fun b2 => b2.name == n) with
        | some b' => exact ⟨b', rfl, List.mem_of_find?_eq_some hfs⟩
        | none =>
          have hsome : (s.books.find? (fun b2 => b2.name == n)).isSome :=
            List.find?_isSome.2 ⟨b, hbmem, by simp [hbname]⟩
          rw [hfs] at hsome
          exact absurd hsome (by simp)
      by_cases hr : s.showEpubReader = true
      · have hrun : handlePopState s = s := by
          simp [handlePopState, hst, hfind, hr]
        rw [hrun]
        exact inv_reader_tagged ⟨hidx, hent, hflag, hsel⟩ n hst hr
      · have hrun : handlePopState s = openEpubReader b' s := by
          simp [handlePopState, hst, hfind, hr]
        rw [hrun]
        exact inv_openEpubReader ⟨hidx, hent, hflag, hsel⟩ hb'

/-- The invariant holds on the freshly loaded page. -/
theorem inv_init (books : List Book) : Inv (initAppState books) := by
  refine ⟨⟨by simp [initAppState], ?_, by simp [initAppState], ?_⟩, ?_, ?_⟩
  · intro e he
    simp only [initAppState, List.mem_singleton] at he
    rw [he]
    exact entryOK_none books
  · intro b hb
    exact Option.noConfusion hb
  · intro n hn
    exact Option.noConfusion hn
  · intro n hn
    exact Option.noConfusion hn

/-- Every operation preserves the invariant. -/
theorem inv_step {s : AppState} (hs : Inv s) (op : Op) : Inv (step s op) := by
  obtain ⟨⟨hidx, hent, hflag, hsel⟩, htagD, htagR⟩ := hs
  cases op with
  | selectBook b =>
    simp only [step]
    split
    · next h => exact inv_showBookDetails ⟨hidx, hent, hflag, hsel⟩ h.2.2 h.2.1
    · exact ⟨⟨hidx, hent, hflag, hsel⟩, htagD, htagR⟩
  | openReader =>
    simp only [step]
    cases hsb : s.selectedBook with
    | none => exact ⟨⟨hidx, hent, hflag, hsel⟩, htagD, htagR⟩
    | some b =>
      show Inv (if s.showBookDetail = true ∧ s.showEpubReader = false then
        openEpubReader b s else s)
      split
      · exact inv_openEpubReader ⟨hidx, hent, hflag, hsel⟩ (hsel b hsb)
      · exact ⟨⟨hidx, hent, hflag, hsel⟩, htagD, htagR⟩
  | closeDetail =>
    simp only [step]
    split
    · refine inv_clearHash ⟨hidx, hent, by simp, ?_⟩
      intro b hb
      exact Option.noConfusion hb
    · exact ⟨⟨hidx, hent, hflag, hsel⟩, htagD, htagR⟩
  | closeReader =>
    simp only [step]
    split
    · exact inv_clearHash ⟨hidx, hent, by simp, hsel⟩
    · exact ⟨⟨hidx, hent, hflag, hsel⟩, htagD, htagR⟩
  | back =>
    simp only [step]
    split
    · next h =>
      have hb2 : s.hist.idx - 1 < s.hist.entries.length := by omega
      exact inv_handlePopState ⟨hb2, hent, hflag, hsel⟩
    · exact ⟨⟨hidx, hent, hflag, hsel⟩, htagD, htagR⟩
  | forward =>
    simp only [step]
    split
    · next h => exact inv_handlePopState ⟨h, hent, hflag, hsel⟩
    · exact ⟨⟨hidx, hent, hflag, hsel⟩, htagD, htagR⟩

/-- The invariant holds after any sequence of operations. -/
theorem run_inv (books : List Book) (ops : List Op) : Inv (run books ops) := by
  unfold run
  suffices h : ∀ (l : List Op) (s : AppState), Inv s → Inv (l.foldl step s) from
    h ops _ (inv_init books)
  intro l
  induction l with
  | nil => exact fun s hs => hs
  | cons op l ih => exact fun s hs => ih _ (inv_step hs op)

/-- C2 (amended): after any sequence of select-book, open-reader,
close-detail, close-reader and browser back/forward from the Closed state,
at most one of `showBookDetail` and `showEpubReader` is true, and whenever
the current top-of-stack entry carries a tag the matching modal is open
(`{bookDetail}` implies the detail view is open, `{epubReader}` implies the
reader is open).  The converse direction of the claimed correspondence fails:
a back navigation from the reader to the detail entry leaves the detail view
open while the entry's tag has been cleared (see the counterexample). -/
theorem historySync_invariant (books : List Book) (ops : List Op) :
    ¬((run books ops).showBookDetail = true ∧
      (run books ops).showEpubReader = true) ∧
    (∀ n, ((run books ops).hist.current).state = some (HistTag.bookDetail n) →
      (run books ops).showBookDetail = true) ∧
    (∀ n, ((run books ops).hist.current).state = some (HistTag.epubReader n) →
      (run books ops).showEpubReader = true) := by
  obtain ⟨⟨_, _, hflag, _⟩, htagD, htagR⟩ := run_inv books ops
  exact ⟨hflag, htagD, htagR⟩

/-- Witness for `historySync_invariant` at a concrete input. -/
theorem historySync_invariant_witness :
    (run [bkX] [Op.selectBook bkX]).showBookDetail = true :=
  (historySync_invariant [bkX] [Op.selectBook bkX]).2.1 "x" (by decide)

/-- C3 (amended): selecting a book and opening the reader each push exactly
one history entry (truncating any forward entries); the programmatic closes
are non-pushing (`replaceState` or nothing, preserving the entry count); the
popstate handler pushes nothing when the restored entry is untagged or
detail-tagged — but on restoring a reader-tagged entry with the reader
closed it re-opens the reader through `openEpubReader`, which pushes one new
reader entry, so browser back/forward is not push-free. -/
theorem popState_push_spec (s : AppState) (b : Book) (n : String) :
    ((showBookDetails b s).hist.entries =
      s.hist.entries.take (s.hist.idx + 1) ++
        [⟨some (HistTag.bookDetail b.name), some ("book-" ++ b.name)⟩]) ∧
    ((openEpubReader b s).hist.entries =
      s.hist.entries.take (s.hist.idx + 1) ++
        [⟨some (HistTag.epubReader b.name), some ("reading-" ++ b.name)⟩]) ∧
    ((closeBookDetail s).hist.entries.length = s.hist.entries.length) ∧
    ((closeEpubReader s).hist.entries.length = s.hist.entries.length) ∧
    ((s.hist.current).state = none →
      (handlePopState s).hist.entries.length = s.hist.entries.length) ∧
    ((s.hist.current).state = some (HistTag.bookDetail n) →
      (handlePopState s).hist.entries.length = s.hist.entries.length) ∧
    ((s.hist.current).state = some (HistTag.epubReader n) →
      (s.showEpubReader = true → handlePopState s = s) ∧
      (s.showEpubReader = false →
        ∀ bk, s.books.find? (fun b2 => b2.name == n) = some bk →
          (handlePopState s).hist.entries =
            s.hist.entries.take (s.hist.idx + 1) ++
              [⟨some (HistTag.epubReader bk.name),
                some ("reading-" ++ bk.name)⟩])) := by
  refine ⟨rfl, rfl, ?_, ?_, ?_, ?_, ?_⟩
  · unfold closeBookDetail clearHash
    split
    · simp [replaceState, List.length_set]
    · rfl
  · unfold closeEpubReader clearHash
    split
    · simp [replaceState, List.length_set]
    · rfl
  · intro hst
    by_cases hr : s.showEpubReader = true <;> by_cases hd : s.showBookDetail = true <;>
      by_cases hh : ((s.hist.current).hash).isSome = true <;>
        simp [handlePopState, hst, hr, hd, hh, closeEpubReader, clearHash,
          replaceState, List.length_set]
  · intro hst
    cases hfind : s.books.find? (fun b2 => b2.name == n) with
    | some bk =>
      by_cases hr : s.showEpubReader = true <;>
        by_cases hh : ((s.hist.current).hash).isSome = true <;>
          simp [handlePopState, hst, hfind, hr, hh, closeEpubReader, clearHash,
            replaceState, List.length_set]
    | none =>
      by_cases hr : s.showEpubReader = true <;>
        by_cases hh : ((s.hist.current).hash).isSome = true <;>
          simp [handlePopState, hst, hfind, hr, hh, closeEpubReader, clearHash,
            replaceState, List.length_set]
  · intro hst
    constructor
    · intro hr
      cases hfind : s.books.find? (fun b2 => b2.name == n) with
      | some bk => simp [handlePopState, hst, hfind, hr]
      | none => simp [handlePopState, hst, hfind]
    · intro hr bk hfind
      simp [handlePopState, hst, hfind, hr, openEpubReader, pushState]

/-- The concrete state for the `popState_push_spec` witness: the history
holds the initial entry and a reader entry for `bkX`, the reader entry has
just been restored by back/forward, and both modals are closed. -/
def eReaderX : HistEntry :=
  ⟨some (HistTag.epubReader "x"), some ("reading-" ++ "x")⟩

def sReaderBack : AppState :=
  { books := [bkX], showBookDetail := false, selectedBook := none,
    showEpubReader := false, currentBook := none,
    hist := { entries := [⟨none, none⟩, eReaderX], idx := 1 } }

/-- Witness for `popState_push_spec` at a concrete input. -/
theorem popState_push_spec_witness :
    (handlePopState sReaderBack).hist.entries =
      sReaderBack.hist.entries.take (sReaderBack.hist.idx + 1) ++
        [⟨some (HistTag.epubReader bkX.name),
          some ("reading-" ++ bkX.name)⟩] :=
  ((popState_push_spec sReaderBack bkX "x").2.2.2.2.2.2 (by decide)).2
    (by decide) bkX (by decide)

end MmEpub
